import Mathlib

/-!
# Verification of the library-app catalog service

Shallow embedding of the Go sources of `GoLangProject2024`: the book model
(`BookModel.GetAll/Get/Insert/Delete/Update`), the HTTP handlers
(`GetBooks`, `GetBook`, `DeleteBook`, `UpdateBook`, `activateUserHandler`)
and — modelled from the spec where the Go file is not part of the sources —
the `Filters`/pagination helpers, the users model and the token store.

Conventions of the embedding:
* the SQL database is a `List` of rows; a query's `ORDER BY c d, id ASC`
  clause becomes an insertion sort by the corresponding key relation;
* Go's `error` results become `Except GoError` / `Option GoError` values;
  storage-engine failures (context deadline, connectivity) are injected
  through an `Option DBFault` parameter standing for the engine outcome;
* a Go nil slice is `none`, a non-nil (possibly empty) slice is `some l`.
-/

/-- A storage-engine failure: deadline exceeded or connectivity loss. -/
inductive DBFault
  | timeout
  | connectivity
  deriving DecidableEq, Repr

/-- The Go error values the embedded code distinguishes.
`recordNotFound` and `editConflict` are the model sentinels
(`ErrRecordNotFound`, `ErrEditConflict`); `sqlNoRows` is `sql.ErrNoRows`
returned raw; `fault` wraps a storage-engine failure; `sortKeyUnsafe`
models the panic of `sortColumn` on a non-safelisted sort value. -/
inductive GoError
  | recordNotFound
  | editConflict
  | sqlNoRows
  | fault (f : DBFault)
  | sortKeyUnsafe
  deriving DecidableEq, Repr

deriving instance DecidableEq for Except

/-- A row of the `books` table (struct `Book` in the models package). -/
structure Book where
  Id : Int
  Title : String
  Author : String
  PublishedYear : Int
  CreatedAt : String
  UpdatedAt : String
  deriving DecidableEq, Repr

/-- A row of the `users` table (struct `User`), with the `version` column
used for optimistic conflict detection. -/
structure User where
  ID : Int
  Name : String
  Email : String
  Activated : Bool
  Version : Int
  deriving DecidableEq, Repr

/-- Credential scopes (`ScopeAuthentication`, `ScopeActivation`). -/
inductive TokenScope
  | authentication
  | activation
  deriving DecidableEq, Repr

/-- A stored credential row: only the lookup hash is persisted. -/
structure Token where
  Hash : String
  UserID : Int
  Expiry : Int
  Scope : TokenScope
  deriving DecidableEq, Repr

/-- The client-supplied filter parameters (struct `Filters`). -/
structure Filters where
  Page : Int
  PageSize : Int
  SortKey : String
  SortSafelist : List String
  deriving DecidableEq, Repr

/-- Pagination metadata (struct `Metadata`). -/
structure Metadata where
  CurrentPage : Int
  PageSize : Int
  FirstPage : Int
  LastPage : Int
  TotalRecords : Int
  deriving DecidableEq, Repr

/-- The zero value of `Metadata` (Go `Metadata{}`). -/
def Metadata.zero : Metadata := ⟨0, 0, 0, 0, 0⟩

/-- Whether a sort value carries the leading descending marker. -/
def hasDescMarker (s : String) : Bool :=
  match s.data with
  | '-' :: _ => true
  | _ => false

/-- Strip the descending marker from a sort value. -/
def stripDescMarker (s : String) : String :=
  match s.data with
  | '-' :: rest => String.mk rest
  | _ => s

/-- Modelled from the spec: `ValidateFilters` (the filters file is not among
the sources; only its callers are). Enforces `1 ≤ page`,
`1 ≤ pageSize ≤ 100`, and that the sort value appears verbatim in the sort
safelist, failing with field/message pairs; the sort failure is
`("sort", "invalid sort value")`. -/
def ValidateFilters (f : Filters) : List (String × String) :=
  (if 1 ≤ f.Page then [] else [("page", "must be at least 1")]) ++
  (if 1 ≤ f.PageSize then [] else [("page_size", "must be at least 1")]) ++
  (if f.PageSize ≤ 100 then [] else [("page_size", "must be a maximum of 100")]) ++
  (if f.SortKey ∈ f.SortSafelist then [] else [("sort", "invalid sort value")])

/-- Modelled from the spec: `Filters.sortColumn`. The interpolated column is
drawn from the safelist entry equal to the client's sort value (with the
descending marker stripped), never from the raw user string; `none` models
the panic on a non-safelisted value (unreachable after validation). -/
def Filters.sortColumn (f : Filters) : Option String :=
  (f.SortSafelist.find? (fun v => v == f.SortKey)).map stripDescMarker

/-- Sort direction: ascending unless the descending marker is present. -/
inductive SortDir
  | asc
  | desc
  deriving DecidableEq, Repr

/-- Modelled from the spec: `Filters.sortDirection` — descending exactly when
the sort value carries the `-` marker. -/
def Filters.sortDirection (f : Filters) : SortDir :=
  if hasDescMarker f.SortKey then .desc else .asc

/-- Modelled from the spec: `Filters.limit` = pageSize. -/
def Filters.limit (f : Filters) : Int := f.PageSize

/-- Modelled from the spec: `Filters.offset` = (page - 1) * pageSize. -/
def Filters.offset (f : Filters) : Int := (f.Page - 1) * f.PageSize

/-- Modelled from the spec: `calculateMetadata` (the filters file is not
among the sources). Pure; returns the zero metadata when no records,
otherwise `lastPage` is the ceiling of `totalRecords / pageSize`. -/
def calculateMetadata (totalRecords page pageSize : Int) : Metadata :=
  if totalRecords = 0 then Metadata.zero
  else
    { CurrentPage := page
      PageSize := pageSize
      FirstPage := 1
      LastPage := (totalRecords + pageSize - 1) / pageSize
      TotalRecords := totalRecords }

/-- The sort key a `ORDER BY <column>` clause compares: a lexicographic
pair so that every column fits one key type. Integer columns use the first
component, text columns the second. -/
def colKey (col : String) (b : Book) : Lex (Int × String) :=
  toLex (match col with
    | "title" => ((0 : Int), b.Title)
    | "author" => ((0 : Int), b.Author)
    | "publishedyear" => (b.PublishedYear, "")
    | _ => (b.Id, ""))

/-- Row order by a key with the stable ascending tiebreak on the unique
`id` column — the embedding of `ORDER BY <key>, id ASC`. -/
def tieRel {κ : Type} [LinearOrder κ] (k : Book → κ) (a b : Book) : Prop :=
  k a < k b ∨ (k a = k b ∧ a.Id ≤ b.Id)

instance {κ : Type} [LinearOrder κ] (k : Book → κ) : DecidableRel (tieRel k) :=
  fun a b => inferInstanceAs (Decidable (k a < k b ∨ (k a = k b ∧ a.Id ≤ b.Id)))

/-- The row order of `ORDER BY %s %s, id ASC` for the interpolated column
and direction. -/
def sortRel (col : String) : SortDir → Book → Book → Prop
  | .asc => tieRel (colKey col)
  | .desc => tieRel (fun b => OrderDual.toDual (colKey col b))

instance (col : String) : (dir : SortDir) → DecidableRel (sortRel col dir)
  | .asc => inferInstanceAs (DecidableRel (tieRel (colKey col)))
  | .desc => inferInstanceAs (DecidableRel (tieRel (fun b => OrderDual.toDual (colKey col b))))

instance (col : String) (dir : SortDir) : IsTotal Book (sortRel col dir) := by
  constructor
  intro a b
  cases dir <;> simp only [sortRel, tieRel]
  · rcases lt_trichotomy (colKey col a) (colKey col b) with h | h | h
    · exact Or.inl (Or.inl h)
    · rcases Int.le_total a.Id b.Id with hid | hid
      · exact Or.inl (Or.inr ⟨h, hid⟩)
      · exact Or.inr (Or.inr ⟨h.symm, hid⟩)
    · exact Or.inr (Or.inl h)
  · rcases lt_trichotomy (OrderDual.toDual (colKey col a)) (OrderDual.toDual (colKey col b)) with h | h | h
    · exact Or.inl (Or.inl h)
    · rcases Int.le_total a.Id b.Id with hid | hid
      · exact Or.inl (Or.inr ⟨h, hid⟩)
      · exact Or.inr (Or.inr ⟨h.symm, hid⟩)
    · exact Or.inr (Or.inl h)

instance (col : String) (dir : SortDir) : IsTrans Book (sortRel col dir) := by
  constructor
  intro a b c hab hbc
  cases dir <;> simp only [sortRel, tieRel] at hab hbc ⊢
  · rcases hab with h1 | ⟨h1, h1id⟩ <;> rcases hbc with h2 | ⟨h2, h2id⟩
    · exact Or.inl (h1.trans h2)
    · exact Or.inl (h2 ▸ h1)
    · exact Or.inl (h1 ▸ h2)
    · exact Or.inr ⟨h1.trans h2, h1id.trans h2id⟩
  · rcases hab with h1 | ⟨h1, h1id⟩ <;> rcases hbc with h2 | ⟨h2, h2id⟩
    · exact Or.inl (h1.trans h2)
    · exact Or.inl (h2 ▸ h1)
    · exact Or.inl (h1 ▸ h2)
    · exact Or.inr ⟨h1.trans h2, h1id.trans h2id⟩

/-- The `WHERE` clause of `GetAll`: each of the two text predicates matches
when the engine's text search matches or the query string is empty. The
engine-owned text-search semantics is the abstract parameter `tsMatch`. -/
def rowMatches (tsMatch : String → String → Bool) (titleQ authorQ : String) (b : Book) : Bool :=
  (tsMatch b.Title titleQ || titleQ == "") && (tsMatch b.Author authorQ || authorQ == "")

/-- The dynamic parts interpolated or bound into the `GetAll` query. -/
structure QuerySpec where
  column : String
  direction : SortDir
  rowLimit : Int
  rowOffset : Int
  deriving DecidableEq, Repr

/-- Result of `BookModel.GetAll`: the three Go return values plus, for the
safety claims, the query that was sent (`none` when no query executed). -/
structure GetAllResult where
  books : Option (List Book)
  metadata : Metadata
  err : Option GoError
  query : Option QuerySpec
  deriving DecidableEq, Repr

/-- `BookModel.GetAll`. The SQL text search, ordering, limit/offset and the
windowed `count(*) OVER()` are embedded over the row list: filter, sort by
the interpolated column/direction with the `id ASC` tiebreak, then page.
`totalRecords` is scanned from the returned rows, so it stays `0` when the
page is empty. -/
def BookModel.GetAll (tsMatch : String → String → Bool) (db : List Book)
    (engine : Option DBFault) (title author : String) (filters : Filters) :
    GetAllResult :=
  match filters.sortColumn with
  | none => ⟨none, Metadata.zero, some .sortKeyUnsafe, none⟩
  | some col =>
    let spec : QuerySpec := ⟨col, filters.sortDirection, filters.limit, filters.offset⟩
    match engine with
    | some f => ⟨none, Metadata.zero, some (.fault f), some spec⟩
    | none =>
      let matched := db.filter (rowMatches tsMatch title author)
      let sorted := List.insertionSort (sortRel col filters.sortDirection) matched
      let pageRows := (sorted.drop filters.offset.toNat).take filters.limit.toNat
      let totalRecords : Int := if pageRows.isEmpty then 0 else (matched.length : Int)
      ⟨some pageRows, calculateMetadata totalRecords filters.Page filters.PageSize, none, some spec⟩

/-- `BookModel.Get`. Faithful to the source: `id < 1` gives
`ErrRecordNotFound`, and every row-scan error — `sql.ErrNoRows` as well as
any storage-engine failure — is mapped to `ErrRecordNotFound`. -/
def BookModel.Get (db : List Book) (engine : Option DBFault) (id : Int) :
    Except GoError Book :=
  if id < 1 then .error .recordNotFound
  else
    let scan : Except GoError Book :=
      match engine with
      | some f => .error (.fault f)
      | none =>
        match db.find? (fun r => r.Id == id) with
        | some b => .ok b
        | none => .error .sqlNoRows
    match scan with
    | .ok b => .ok b
    | .error _ => .error .recordNotFound

/-- `BookModel.Delete`: `id < 1` gives `ErrRecordNotFound`; otherwise the
`DELETE ... WHERE id = $1` either fails with the engine's error or removes
every row with that id (affected row count is ignored by the source). -/
def BookModel.Delete (db : List Book) (engine : Option DBFault) (id : Int) :
    Except GoError (List Book) :=
  if id < 1 then .error .recordNotFound
  else
    match engine with
    | some f => .error (.fault f)
    | none => .ok (db.filter (fun r => r.Id != id))

/-- `BookModel.Update`: `UPDATE books SET title, author, publishedyear,
updated_at = NOW() WHERE id = $4 RETURNING updated_at`. No version or
timestamp comparison appears in the source: the write is keyed by id only.
When no row has the id, scanning the `RETURNING` row yields
`sql.ErrNoRows`, returned raw. -/
def BookModel.Update (db : List Book) (engine : Option DBFault) (b : Book)
    (now : String) : Except GoError (List Book × Book) :=
  match engine with
  | some f => .error (.fault f)
  | none =>
    if db.any (fun r => r.Id == b.Id) then
      .ok (db.map (fun r =>
            if r.Id == b.Id then
              { r with Title := b.Title, Author := b.Author,
                       PublishedYear := b.PublishedYear, UpdatedAt := now }
            else r),
          { b with UpdatedAt := now })
    else .error .sqlNoRows

/-- Modelled from the spec: `Users.Update` (the users model file is not
among the sources; its caller `activateUserHandler` switches on
`ErrEditConflict`). Optimistic check: the write is keyed by id AND the
version read by the caller; when no row matches — a concurrent writer
changed the record — it fails with `ErrEditConflict`; on success the
stored version is incremented and scanned back. -/
def UserModel.Update (db : List User) (u : User) :
    Except GoError (List User × User) :=
  if db.any (fun r => r.ID == u.ID && r.Version == u.Version) then
    .ok (db.map (fun r =>
          if r.ID == u.ID && r.Version == u.Version then
            { r with Name := u.Name, Email := u.Email,
                     Activated := u.Activated, Version := u.Version + 1 }
          else r),
        { u with Version := u.Version + 1 })
  else .error .editConflict

/-- Modelled from the spec: `TokenStore.Resolve` — recompute the lookup
hash from the presented secret and find a credential matching hash AND
scope AND unexpired; otherwise fail with not-found. -/
def resolveToken (hashFn : String → String) (tokens : List Token)
    (scope : TokenScope) (plaintext : String) (now : Int) :
    Except GoError Token :=
  match tokens.find? (fun t =>
      t.Hash == hashFn plaintext && t.Scope == scope && now < t.Expiry) with
  | some t => .ok t
  | none => .error .recordNotFound

/-- Modelled from the spec: `Users.GetByToken` — resolve the credential,
then join to the owning user record. -/
def GetByToken (hashFn : String → String) (users : List User)
    (tokens : List Token) (scope : TokenScope) (plaintext : String)
    (now : Int) : Except GoError User :=
  match resolveToken hashFn tokens scope plaintext now with
  | .error e => .error e
  | .ok t =>
    match users.find? (fun u => u.ID == t.UserID) with
    | some u => .ok u
    | none => .error .recordNotFound

/-- Modelled from the spec: `Tokens.DeleteAllForUser` — remove every
credential for that subject and scope. -/
def deleteAllForUser (tokens : List Token) (scope : TokenScope)
    (userID : Int) : List Token :=
  tokens.filter (fun t => !(t.Scope == scope && t.UserID == userID))

/-- Modelled from the spec: `ValidateTokenPlaintext` — the transported
secret is non-empty and exactly 26 base32 characters. -/
def validTokenPlaintext (s : String) : Bool :=
  s ≠ "" && s.length == 26

/-- A handler's response, abstracting the JSON envelope: `ok` carries the
status code and body, the rest are the error helpers of the source. -/
inductive HResp (α : Type)
  | ok (status : Nat) (body : α)
  | notFound
  | badRequest
  | failedValidation (errs : List (String × String))
  | conflict
  | serverError (e : GoError)
  deriving DecidableEq, Repr

/-- `ValidateBook`: title non-empty, title and author at most 100 bytes. -/
def ValidateBook (b : Book) : List (String × String) :=
  (if b.Title ≠ "" then [] else [("title", "must be provided")]) ++
  (if b.Title.utf8ByteSize ≤ 100 then [] else
    [("title", "must not be more than 100 bytes long")]) ++
  (if b.Author.utf8ByteSize ≤ 100 then [] else
    [("author", "must not be more than 100 bytes long")])

/-- The sort safelist of the `GetBooks` endpoint, verbatim from the
handler source. -/
def bookSortSafelist : List String :=
  ["id", "title", "author", "publishedyear", "-id", "-title", "-author", "-publishedyear"]

/-- The `GetBooks` handler: build the filters with the endpoint safelist,
validate, and only then call `BookModel.GetAll`. The second component is
the query that was executed (`none` when validation failed first). -/
def GetBooks (tsMatch : String → String → Bool) (db : List Book)
    (engine : Option DBFault) (title author sort : String)
    (page pageSize : Int) : HResp (List Book × Metadata) × Option QuerySpec :=
  let filters : Filters :=
    { Page := page, PageSize := pageSize, SortKey := sort,
      SortSafelist := bookSortSafelist }
  let errs := ValidateFilters filters
  if errs.isEmpty then
    let r := BookModel.GetAll tsMatch db engine title author filters
    match r.err with
    | some e => (.serverError e, r.query)
    | none => (.ok 200 (r.books.getD [], r.metadata), r.query)
  else
    (.failedValidation errs, none)

/-- The `GetBook` handler: bad or small id gives not-found; a
`ErrRecordNotFound` from the model gives not-found; any other model error
gives a server error. -/
def GetBook (db : List Book) (engine : Option DBFault) (idParam : Option Int) :
    HResp Book :=
  match idParam with
  | none => .notFound
  | some id =>
    if id < 1 then .notFound
    else
      match BookModel.Get db engine id with
      | .error .recordNotFound => .notFound
      | .error e => .serverError e
      | .ok b => .ok 200 b

/-- The `DeleteBook` handler. Faithful to the source: the error returned by
`BookModel.Delete` is discarded (the call's result is not checked), and the
success envelope `{"message": "success", "deleted_book": book}` is written
regardless; the second component is the resulting database. -/
def DeleteBook (db : List Book) (getEngine delEngine : Option DBFault)
    (idParam : Option Int) : HResp (String × Book) × List Book :=
  match idParam with
  | none => (.notFound, db)
  | some id =>
    if id < 1 then (.notFound, db)
    else
      match BookModel.Get db getEngine id with
      | .error .recordNotFound => (.notFound, db)
      | .error e => (.serverError e, db)
      | .ok book =>
        let db' := match BookModel.Delete db delEngine id with
          | .ok d => d
          | .error _ => db
        (.ok 200 ("success", book), db')

/-- The decoded `UpdateBook` request body: a nil pointer is `none`. -/
structure BookInput where
  Title : Option String
  Author : Option String
  PublishedYear : Option Int
  deriving DecidableEq, Repr

/-- Apply the three `if input.X != nil` assignments of `UpdateBook`. -/
def applyBookInput (book : Book) (input : BookInput) : Book :=
  let b1 := match input.Title with
    | some t => { book with Title := t }
    | none => book
  let b2 := match input.Author with
    | some a => { b1 with Author := a }
    | none => b1
  match input.PublishedYear with
  | some y => { b2 with PublishedYear := y }
  | none => b2

/-- The `UpdateBook` handler: fetch, merge the partial body, validate, then
`BookModel.Update`; any model-update error is a server error. The second
component is the resulting database. -/
def UpdateBook (db : List Book) (getEngine updEngine : Option DBFault)
    (idParam : Option Int) (body : Option BookInput) (now : String) :
    HResp Book × List Book :=
  match idParam with
  | none => (.notFound, db)
  | some id =>
    if id < 1 then (.notFound, db)
    else
      match BookModel.Get db getEngine id with
      | .error .recordNotFound => (.notFound, db)
      | .error e => (.serverError e, db)
      | .ok book =>
        match body with
        | none => (.badRequest, db)
        | some input =>
          let merged := applyBookInput book input
          let verrs := ValidateBook merged
          if verrs.isEmpty then
            match BookModel.Update db updEngine merged now with
            | .error e => (.serverError e, db)
            | .ok (db', updated) => (.ok 200 updated, db')
          else (.failedValidation verrs, db)

/-- The mutable application state the activation handler touches. -/
structure AppState where
  users : List User
  tokens : List Token
  deriving DecidableEq, Repr

/-- The `activateUserHandler`: decode the body, validate the plaintext
token, resolve it to a user in the Activation scope, set `Activated`,
save with the optimistic `Users.Update` (an `ErrEditConflict` becomes the
edit-conflict response), and only on a successful update delete all
Activation credentials of that user in bulk. -/
def activateUser (hashFn : String → String) (st : AppState)
    (body : Option String) (now : Int) : HResp User × AppState :=
  match body with
  | none => (.badRequest, st)
  | some plaintext =>
    if !(validTokenPlaintext plaintext) then
      (.failedValidation [("token", "must be provided and 26 bytes long")], st)
    else
      match GetByToken hashFn st.users st.tokens .activation plaintext now with
      | .error .recordNotFound =>
        (.failedValidation [("token", "invalid or expired activation token")], st)
      | .error e => (.serverError e, st)
      | .ok user =>
        let user' := { user with Activated := true }
        match UserModel.Update st.users user' with
        | .error .editConflict => (.conflict, st)
        | .error e => (.serverError e, st)
        | .ok (users', updated) =>
          let tokens' := deleteAllForUser st.tokens .activation updated.ID
          (.ok 200 updated, { users := users', tokens := tokens' })

/-! ## Helper lemmas -/

/-- Two rows below each other in both directions of a tiebreak order share
their id. -/
theorem tieRel_antisymm_id {κ : Type} [LinearOrder κ] (k : Book → κ)
    {a b : Book} (h1 : tieRel k a b) (h2 : tieRel k b a) : a.Id = b.Id := by
  rcases h1 with h1 | ⟨h1, h1id⟩ <;> rcases h2 with h2 | ⟨h2, h2id⟩
  · exact absurd h2 (lt_asymm h1)
  · exact absurd h1 (by rw [h2]; exact lt_irrefl _)
  · exact absurd h2 (by rw [h1]; exact lt_irrefl _)
  · exact le_antisymm h1id h2id

/-- Two rows below each other in both directions of the `ORDER BY` relation
share their id. -/
theorem sortRel_antisymm_id (col : String) (dir : SortDir) {a b : Book}
    (h1 : sortRel col dir a b) (h2 : sortRel col dir b a) : a.Id = b.Id := by
  cases dir
  · exact tieRel_antisymm_id (colKey col) h1 h2
  · exact tieRel_antisymm_id (fun b => OrderDual.toDual (colKey col b)) h1 h2

/-- A sorted permutation is unique when the order is antisymmetric on the
list's members. -/
theorem sorted_perm_eq {r : Book → Book → Prop} :
    ∀ {l₁ l₂ : List Book}, l₁.Perm l₂ → l₁.Sorted r → l₂.Sorted r →
      (∀ a ∈ l₁, ∀ b ∈ l₁, r a b → r b a → a = b) → l₁ = l₂ := by
  intro l₁
  induction l₁ with
  | nil =>
    intro l₂ hp _ _ _
    exact hp.nil_eq
  | cons a t ih =>
    intro l₂ hp hs₁ hs₂ hanti
    cases l₂ with
    | nil => exact absurd hp.symm.nil_eq (by simp)
    | cons b t₂ =>
      have hab : a = b := by
        by_contra hne
        have ha2 : a ∈ b :: t₂ := hp.subset (List.mem_cons_self a t)
        have hb1 : b ∈ a :: t := hp.symm.subset (List.mem_cons_self b t₂)
        have ha2' : a ∈ t₂ := by
          rcases List.mem_cons.mp ha2 with h | h
          · exact absurd h hne
          · exact h
        have hb1' : b ∈ t := by
          rcases List.mem_cons.mp hb1 with h | h
          · exact absurd h.symm hne
          · exact h
        have hrab : r a b := List.rel_of_sorted_cons hs₁ b hb1'
        have hrba : r b a := List.rel_of_sorted_cons hs₂ a ha2'
        exact hne (hanti a (List.mem_cons_self a t) b hb1 hrab hrba)
      subst hab
      have hp' := hp.cons_inv
      have ht : t = t₂ :=
        ih hp' hs₁.of_cons hs₂.of_cons
          (fun x hx y hy => hanti x (List.mem_cons_of_mem a hx) y (List.mem_cons_of_mem a hy))
      rw [ht]

/-- `ValidateFilters` passes exactly when the page bounds hold and the sort
value is safelisted. -/
theorem validateFilters_nil_iff (f : Filters) :
    ValidateFilters f = [] ↔
      1 ≤ f.Page ∧ 1 ≤ f.PageSize ∧ f.PageSize ≤ 100 ∧ f.SortKey ∈ f.SortSafelist := by
  unfold ValidateFilters
  split_ifs <;> simp_all


/-! ## Claim theorems -/

/-- C4: `calculateMetadata` is a pure function with `currentPage = page`,
`pageSize = pageSize`, `firstPage = 1`, `totalRecords = totalRecords` and
`lastPage` the ceiling of `totalRecords / pageSize` (characterized by
`pageSize * (lastPage - 1) < totalRecords ≤ pageSize * lastPage`); when
`totalRecords = 0` it returns the zero-valued metadata; in particular
`calculateMetadata 57 2 20 = {2, 20, 1, 3, 57}`. -/
theorem calculateMetadata_correct (t page p : Int) :
    (t = 0 → calculateMetadata t page p = Metadata.zero) ∧
    (t ≠ 0 → 1 ≤ p → 1 ≤ t →
      (calculateMetadata t page p).CurrentPage = page ∧
      (calculateMetadata t page p).PageSize = p ∧
      (calculateMetadata t page p).FirstPage = 1 ∧
      (calculateMetadata t page p).TotalRecords = t ∧
      p * ((calculateMetadata t page p).LastPage - 1) < t ∧
      t ≤ p * (calculateMetadata t page p).LastPage) ∧
    calculateMetadata 57 2 20 = ⟨2, 20, 1, 3, 57⟩ := by
  refine ⟨fun h => by simp [calculateMetadata, h], fun h hp ht => ?_, by decide⟩
  simp only [calculateMetadata, if_neg h]
  refine ⟨trivial, trivial, trivial, trivial, ?_, ?_⟩
  · have hd := Int.ediv_add_emod (t + p - 1) p
    have h1 := Int.emod_nonneg (t + p - 1) (by omega : p ≠ 0)
    have hexp : p * ((t + p - 1) / p - 1) = p * ((t + p - 1) / p) - p := by ring
    linarith
  · have hd := Int.ediv_add_emod (t + p - 1) p
    have h2 := Int.emod_lt_of_pos (t + p - 1) (by omega : (0:Int) < p)
    linarith

/-- C7: for every valid `(page, pageSize)` with `page ≥ 1` and
`1 ≤ pageSize ≤ 100`, planning yields `limit = pageSize` and
`offset = (page-1)*pageSize`, both non-negative; out-of-bounds values fail
validation, and `GetBooks` rejects them before any query executes. -/
theorem pagination_plan_correct (page pageSize : Int) (sort : String)
    (safelist : List String) :
    (1 ≤ page → 1 ≤ pageSize → pageSize ≤ 100 →
      (Filters.mk page pageSize sort safelist).limit = pageSize ∧
      (Filters.mk page pageSize sort safelist).offset = (page - 1) * pageSize ∧
      0 ≤ (Filters.mk page pageSize sort safelist).limit ∧
      0 ≤ (Filters.mk page pageSize sort safelist).offset) ∧
    (¬(1 ≤ page ∧ 1 ≤ pageSize ∧ pageSize ≤ 100) →
      ValidateFilters (Filters.mk page pageSize sort safelist) ≠ [] ∧
      ∀ tsMatch db engine title author,
        (GetBooks tsMatch db engine title author sort page pageSize).2 = none ∧
        (GetBooks tsMatch db engine title author sort page pageSize).1 =
          .failedValidation
            (ValidateFilters (Filters.mk page pageSize sort bookSortSafelist))) := by
  constructor
  · intro h1 h2 h3
    simp only [Filters.limit, Filters.offset]
    refine ⟨trivial, trivial, by omega, mul_nonneg (by omega) (by omega)⟩
  · intro hv
    have hgen : ∀ sl : List String,
        ValidateFilters (Filters.mk page pageSize sort sl) ≠ [] := by
      intro sl hnil
      rw [validateFilters_nil_iff] at hnil
      exact hv ⟨hnil.1, hnil.2.1, hnil.2.2.1⟩
    refine ⟨hgen safelist, fun tsMatch db engine title author => ?_⟩
    have hne := hgen bookSortSafelist
    have hE : (ValidateFilters (Filters.mk page pageSize sort bookSortSafelist)).isEmpty = false := by
      cases hc : ValidateFilters (Filters.mk page pageSize sort bookSortSafelist) with
      | nil => exact absurd hc hne
      | cons a l => simp
    constructor <;> simp [GetBooks, hE]

/-- C6: when no rows match the search predicates, `GetAll` returns the
empty non-nil slice together with the zero-valued metadata and no error. -/
theorem getAll_no_matches_empty_ok (tsMatch : String → String → Bool)
    (db : List Book) (title author : String) (filters : Filters) (col : String)
    (hcol : filters.sortColumn = some col)
    (hnone : ∀ b ∈ db, rowMatches tsMatch title author b = false) :
    BookModel.GetAll tsMatch db none title author filters =
      ⟨some [], Metadata.zero, none,
        some ⟨col, filters.sortDirection, filters.limit, filters.offset⟩⟩ := by
  have hf : db.filter (rowMatches tsMatch title author) = [] := by
    rw [List.filter_eq_nil_iff]
    intro b hb
    simp [hnone b hb]
  simp [BookModel.GetAll, hcol, hf, List.insertionSort, calculateMetadata]

/-- C9: whenever the initial fetch of `DeleteBook` succeeds, the handler
replies with the success envelope and the fetched book regardless of the
outcome of `Books.Delete` — the delete's error is discarded, and on a
failed delete the store is left unchanged while success is still sent. -/
theorem deleteBook_success_despite_delete_error (db : List Book)
    (getEngine delEngine : Option DBFault) (id : Int) (book : Book)
    (hget : BookModel.Get db getEngine id = .ok book) :
    (DeleteBook db getEngine delEngine (some id)).1 = .ok 200 ("success", book) ∧
    (∀ f, delEngine = some f → (DeleteBook db getEngine delEngine (some id)).2 = db) := by
  have hid : ¬ id < 1 := by
    intro h
    simp [BookModel.Get, h] at hget
  constructor
  · simp [DeleteBook, hid, hget]
  · intro f hf
    subst hf
    simp [DeleteBook, hid, hget, BookModel.Delete]

/-- C3: at the failing input — record with id 1 present, storage engine
failing with a timeout — `Books.Get` returns `ErrRecordNotFound` and the
`GetBook` handler replies not-found, instead of surfacing a distinct
server fault as the claim requires. -/
theorem bookGet_storage_failure_as_notFound :
    BookModel.Get [⟨1, "Alpha", "X", 2000, "t0", "t0"⟩] (some .timeout) 1 =
      .error .recordNotFound ∧
    GetBook [⟨1, "Alpha", "X", 2000, "t0", "t0"⟩] (some .timeout) (some 1) =
      .notFound := by decide

/-- C2 counterexample: two callers read book 1 in the same state and both
submit an update; both `Books.Update` calls succeed — the second silently
overwrites the first and no `ConflictError` is produced, refuting the
claim that exactly one of the two concurrent updates can succeed. -/
theorem bookUpdate_concurrent_both_succeed :
    BookModel.Update [⟨1, "Orig", "X", 2000, "t0", "t0"⟩] none
        ⟨1, "A", "X", 2000, "t0", "t0"⟩ "t1" =
      .ok ([⟨1, "A", "X", 2000, "t0", "t1"⟩], ⟨1, "A", "X", 2000, "t0", "t1"⟩) ∧
    BookModel.Update [⟨1, "A", "X", 2000, "t0", "t1"⟩] none
        ⟨1, "B", "X", 2000, "t0", "t0"⟩ "t2" =
      .ok ([⟨1, "B", "X", 2000, "t0", "t2"⟩], ⟨1, "B", "X", 2000, "t0", "t2"⟩) := by
  decide

/-- C2 amended: only the users model performs the optimistic check — when
a concurrent writer changed the record (no row carries the caller's read
version any more) `Users.Update` fails with `ErrEditConflict`, and of two
callers that read the same version exactly one succeeds; `Books.Update`
has no such check: it can never return `ErrEditConflict`, and after one
book update succeeds a second update from the same stale read also
succeeds, silently overwriting. -/
theorem update_conflict_amended :
    (∀ (users : List User) (u : User),
      (∀ r ∈ users, ¬(r.ID = u.ID ∧ r.Version = u.Version)) →
      UserModel.Update users u = .error .editConflict) ∧
    (∀ (users : List User) (u1 u2 : User) (v : Int),
      (∀ r ∈ users, r.ID = u1.ID → r.Version = v) →
      (∃ r ∈ users, r.ID = u1.ID) →
      u1.Version = v → u2.ID = u1.ID → u2.Version = v →
      ∃ users' nu, UserModel.Update users u1 = .ok (users', nu) ∧
        UserModel.Update users' u2 = .error .editConflict) ∧
    (∀ (db : List Book) (engine : Option DBFault) (b : Book) (now : String),
      BookModel.Update db engine b now ≠ .error .editConflict) ∧
    (∀ (db db1 : List Book) (b1 b2 nb1 : Book) (now1 now2 : String),
      b2.Id = b1.Id →
      BookModel.Update db none b1 now1 = .ok (db1, nb1) →
      (BookModel.Update db1 none b2 now2).isOk = true) := by
  refine ⟨?_, ?_, ?_, ?_⟩
  · intro users u hno
    have hany : users.any (fun r => r.ID == u.ID && r.Version == u.Version) = false := by
      rw [List.any_eq_false]
      intro r hr
      simp only [Bool.and_eq_true, beq_iff_eq, not_and]
      intro h1 h2
      exact hno r hr ⟨h1, h2⟩
    simp [UserModel.Update, hany]
  · intro users u1 u2 v hall hex hv1 hid2 hv2
    obtain ⟨r, hr, hrid⟩ := hex
    have hany : users.any (fun x => x.ID == u1.ID && x.Version == u1.Version) = true := by
      rw [List.any_eq_true]
      exact ⟨r, hr, by simp [hrid, hall r hr hrid, hv1]⟩
    refine ⟨users.map (fun x =>
        if x.ID == u1.ID && x.Version == u1.Version then
          { x with Name := u1.Name, Email := u1.Email,
                   Activated := u1.Activated, Version := u1.Version + 1 }
        else x), { u1 with Version := u1.Version + 1 },
      by rw [UserModel.Update, if_pos hany], ?_⟩
    have hany2 : (users.map (fun x =>
        if x.ID == u1.ID && x.Version == u1.Version then
          { x with Name := u1.Name, Email := u1.Email,
                   Activated := u1.Activated, Version := u1.Version + 1 }
        else x)).any (fun x => x.ID == u2.ID && x.Version == u2.Version) = false := by
      rw [List.any_eq_false]
      intro x' hx'
      obtain ⟨x, hx, rfl⟩ := List.mem_map.mp hx'
      by_cases hc : (x.ID == u1.ID && x.Version == u1.Version) = true
      · simp only [hc, if_true]
        simp only [Bool.and_eq_true, beq_iff_eq, not_and]
        intro _ hver
        omega
      · simp only [hc, if_false]
        simp only [Bool.and_eq_true, beq_iff_eq, not_and]
        intro hxid hxver
        simp only [Bool.and_eq_true, beq_iff_eq, not_and] at hc
        exact hc (hxid.trans hid2) ((hall x hx (hxid.trans hid2)).trans hv1.symm)
    have hcond : ¬ ((users.map (fun x =>
        if x.ID == u1.ID && x.Version == u1.Version then
          { x with Name := u1.Name, Email := u1.Email,
                   Activated := u1.Activated, Version := u1.Version + 1 }
        else x)).any (fun x => x.ID == u2.ID && x.Version == u2.Version) = true) := by
      rw [hany2]
      exact Bool.false_ne_true
    rw [UserModel.Update, if_neg hcond]
  · intro db engine b now h
    cases engine with
    | some f => simp [BookModel.Update] at h
    | none =>
      rw [BookModel.Update] at h
      split at h <;> simp_all
  · intro db db1 b1 b2 nb1 now1 now2 hid hupd
    rw [BookModel.Update] at hupd
    cases hc : db.any (fun r => r.Id == b1.Id) with
    | false => simp [hc] at hupd
    | true =>
      simp only [hc, if_true] at hupd
      injection hupd with hpair
      have hdb1 : db.map (fun r => if r.Id == b1.Id then
          { r with Title := b1.Title, Author := b1.Author,
                   PublishedYear := b1.PublishedYear, UpdatedAt := now1 } else r) = db1 :=
        congrArg Prod.fst hpair
      obtain ⟨r, hrmem, hr⟩ := List.any_eq_true.mp hc
      have hany2 : db1.any (fun x => x.Id == b2.Id) = true := by
        rw [List.any_eq_true]
        refine ⟨(fun r => if r.Id == b1.Id then
            { r with Title := b1.Title, Author := b1.Author,
                     PublishedYear := b1.PublishedYear, UpdatedAt := now1 } else r) r,
          hdb1 ▸ List.mem_map.mpr ⟨r, hrmem, rfl⟩, ?_⟩
        simp only [if_pos hr]
        simp only [beq_iff_eq] at hr ⊢
        rw [hid, ← hr]
      simp only [BookModel.Update, hany2, if_true]
      rfl

/-- C1: `GetBooks` executes a query only when the client's sort value,
with any descending marker stripped, appears verbatim in the endpoint's
sort safelist, and the column interpolated into the query is drawn from
the safelist, not the raw user string; any sort value not in the safelist
is rejected with `("sort", "invalid sort value")` before any query
executes. -/
theorem getBooks_sort_safelisted (tsMatch : String → String → Bool)
    (db : List Book) (engine : Option DBFault) (title author sort : String)
    (page pageSize : Int) :
    (∀ spec, (GetBooks tsMatch db engine title author sort page pageSize).2 = some spec →
      stripDescMarker sort ∈ bookSortSafelist ∧
      spec.column ∈ bookSortSafelist.map stripDescMarker) ∧
    (sort ∉ bookSortSafelist →
      (GetBooks tsMatch db engine title author sort page pageSize).2 = none ∧
      ∃ errs, (GetBooks tsMatch db engine title author sort page pageSize).1 =
          HResp.failedValidation errs ∧ ("sort", "invalid sort value") ∈ errs) := by
  have hq : (GetBooks tsMatch db engine title author sort page pageSize).2 =
      if (ValidateFilters (Filters.mk page pageSize sort bookSortSafelist)).isEmpty then
        (BookModel.GetAll tsMatch db engine title author
          (Filters.mk page pageSize sort bookSortSafelist)).query
      else none := by
    simp only [GetBooks]
    split
    · split <;> rfl
    · rfl
  have hga : ∀ f : Filters,
      (BookModel.GetAll tsMatch db engine title author f).query =
        f.sortColumn.map (fun col => QuerySpec.mk col f.sortDirection f.limit f.offset) := by
    intro f
    cases hc : f.sortColumn <;> cases engine <;> simp [BookModel.GetAll, hc]
  constructor
  · intro spec hspec
    rw [hq] at hspec
    cases hE : (ValidateFilters (Filters.mk page pageSize sort bookSortSafelist)).isEmpty with
    | false => rw [hE] at hspec; simp at hspec
    | true =>
      rw [hE, if_pos rfl] at hspec
      have hmem : sort ∈ bookSortSafelist :=
        ((validateFilters_nil_iff _).mp (List.isEmpty_iff.mp hE)).2.2.2
      rw [hga] at hspec
      obtain ⟨col, hcol, hcoleq⟩ := Option.map_eq_some'.mp hspec
      obtain ⟨v, hv, hveq⟩ := Option.map_eq_some'.mp hcol
      have hvmem : v ∈ bookSortSafelist := List.mem_of_find?_eq_some hv
      constructor
      · simp only [bookSortSafelist, List.mem_cons, List.not_mem_nil, or_false] at hmem
        rcases hmem with rfl | rfl | rfl | rfl | rfl | rfl | rfl | rfl <;> decide
      · have : spec.column = stripDescMarker v := by rw [← hcoleq, ← hveq]
        rw [this]
        exact List.mem_map.mpr ⟨v, hvmem, rfl⟩
  · intro hnot
    have hneq : ValidateFilters (Filters.mk page pageSize sort bookSortSafelist) ≠ [] :=
      fun hnil => hnot ((validateFilters_nil_iff _).mp hnil).2.2.2
    have hE : (ValidateFilters (Filters.mk page pageSize sort bookSortSafelist)).isEmpty = false := by
      cases hc : ValidateFilters (Filters.mk page pageSize sort bookSortSafelist) with
      | nil => exact absurd hc hneq
      | cons a l => rfl
    refine ⟨by rw [hq, hE]; rfl, ValidateFilters (Filters.mk page pageSize sort bookSortSafelist), ?_, ?_⟩
    · simp [GetBooks, hE]
    · have hdmem : ("sort", "invalid sort value") ∈
          (if sort ∈ bookSortSafelist then ([] : List (String × String))
           else [("sort", "invalid sort value")]) := by
        rw [if_neg hnot]
        exact List.mem_singleton.mpr rfl
      have hunf : ValidateFilters (Filters.mk page pageSize sort bookSortSafelist) =
          (if 1 ≤ page then [] else [("page", "must be at least 1")]) ++
          (if 1 ≤ pageSize then [] else [("page_size", "must be at least 1")]) ++
          (if pageSize ≤ 100 then [] else [("page_size", "must be a maximum of 100")]) ++
          (if sort ∈ bookSortSafelist then [] else [("sort", "invalid sort value")]) := rfl
      rw [hunf]
      exact List.mem_append.mpr (Or.inr hdmem)

/-- C10: `UpdateBook` is a partial update — for each of title, author and
publishedYear, an absent (null) body field keeps the fetched record's
previously stored value and a present field overwrites it; the record's
identity (id, and also createdAt) is unchanged, and on success the store
rewrites exactly the rows carrying the fetched id with the merged
fields. -/
theorem updateBook_partial_update (db : List Book)
    (getEngine updEngine : Option DBFault) (id : Int) (input : BookInput)
    (now : String) (book : Book) (u : Book) (db' : List Book)
    (hget : BookModel.Get db getEngine id = .ok book)
    (hrun : UpdateBook db getEngine updEngine (some id) (some input) now =
      (HResp.ok 200 u, db')) :
    (input.Title = none → (applyBookInput book input).Title = book.Title) ∧
    (∀ t, input.Title = some t → (applyBookInput book input).Title = t) ∧
    (input.Author = none → (applyBookInput book input).Author = book.Author) ∧
    (∀ a, input.Author = some a → (applyBookInput book input).Author = a) ∧
    (input.PublishedYear = none →
      (applyBookInput book input).PublishedYear = book.PublishedYear) ∧
    (∀ y, input.PublishedYear = some y →
      (applyBookInput book input).PublishedYear = y) ∧
    (applyBookInput book input).Id = book.Id ∧
    (applyBookInput book input).CreatedAt = book.CreatedAt ∧
    db' = db.map (fun r => if r.Id = book.Id then
        { r with Title := (applyBookInput book input).Title,
                 Author := (applyBookInput book input).Author,
                 PublishedYear := (applyBookInput book input).PublishedYear,
                 UpdatedAt := now } else r) := by
  have hid1 : ¬ id < 1 := by
    intro h
    simp [BookModel.Get, h] at hget
  have hfacts : (input.Title = none → (applyBookInput book input).Title = book.Title) ∧
      (∀ t, input.Title = some t → (applyBookInput book input).Title = t) ∧
      (input.Author = none → (applyBookInput book input).Author = book.Author) ∧
      (∀ a, input.Author = some a → (applyBookInput book input).Author = a) ∧
      (input.PublishedYear = none →
        (applyBookInput book input).PublishedYear = book.PublishedYear) ∧
      (∀ y, input.PublishedYear = some y →
        (applyBookInput book input).PublishedYear = y) ∧
      (applyBookInput book input).Id = book.Id ∧
      (applyBookInput book input).CreatedAt = book.CreatedAt := by
    cases ht : input.Title <;> cases ha : input.Author <;> cases hy : input.PublishedYear <;>
      simp [applyBookInput, ht, ha, hy]
  refine ⟨hfacts.1, hfacts.2.1, hfacts.2.2.1, hfacts.2.2.2.1, hfacts.2.2.2.2.1,
    hfacts.2.2.2.2.2.1, hfacts.2.2.2.2.2.2.1, hfacts.2.2.2.2.2.2.2, ?_⟩
  have hmid : (applyBookInput book input).Id = book.Id := hfacts.2.2.2.2.2.2.1
  simp only [UpdateBook, hget, if_neg hid1] at hrun
  cases hv : (ValidateBook (applyBookInput book input)).isEmpty with
  | false =>
    rw [hv] at hrun
    simp at hrun
  | true =>
    rw [hv] at hrun
    simp only [if_pos] at hrun
    cases updEngine with
    | some f => simp [BookModel.Update] at hrun
    | none =>
      rw [BookModel.Update] at hrun
      cases hany : db.any (fun r => r.Id == (applyBookInput book input).Id) with
      | false =>
        rw [hany] at hrun
        simp at hrun
      | true =>
        rw [hany] at hrun
        simp only [if_true] at hrun
        obtain ⟨-, hdb⟩ : (_ = u) ∧ (List.map (fun r =>
            if r.Id = (applyBookInput book input).Id then
              { r with Title := (applyBookInput book input).Title,
                       Author := (applyBookInput book input).Author,
                       PublishedYear := (applyBookInput book input).PublishedYear,
                       UpdatedAt := now } else r) db = db') := by simpa using hrun
        rw [← hdb]
        refine List.map_congr_left ?_
        intro r hr
        by_cases hc : r.Id = book.Id
        · rw [if_pos (by rw [hmid]; exact hc), if_pos hc]
        · rw [if_neg (by rw [hmid]; exact hc), if_neg hc]

/-- C8: when activation succeeds — the handler updates the user without
error — every Activation-scoped credential of that subject is deleted in
bulk, so resolving any previously issued Activation secret of the subject
(any secret whose lookup hash matches one of the subject's stored
Activation credentials, hashes being unique to it) fails with not-found
at any later time. -/
theorem activation_revokes_tokens (hashFn : String → String) (st : AppState)
    (body : Option String) (now : Int) (u : User) (st' : AppState)
    (hrun : activateUser hashFn st body now = (.ok 200 u, st'))
    (c : Token) (_hc : c ∈ st.tokens) (_hcu : c.UserID = u.ID)
    (_hcs : c.Scope = .activation)
    (s : String) (hs : hashFn s = c.Hash)
    (huniq : ∀ c' ∈ st.tokens, c'.Hash = c.Hash →
      c'.UserID = u.ID ∧ c'.Scope = .activation) :
    ∀ now', resolveToken hashFn st'.tokens .activation s now' =
      .error .recordNotFound := by
  have htok : st'.tokens = deleteAllForUser st.tokens .activation u.ID := by
    cases body with
    | none => simp [activateUser] at hrun
    | some plaintext =>
      cases hval : validTokenPlaintext plaintext with
      | false => simp [activateUser, hval] at hrun
      | true =>
        simp only [activateUser, hval, Bool.not_true, Bool.false_eq_true,
          if_false] at hrun
        cases hgbt : GetByToken hashFn st.users st.tokens .activation plaintext now with
        | error e =>
          rw [hgbt] at hrun
          cases e <;> simp at hrun
        | ok user =>
          simp only [hgbt] at hrun
          cases hupd : UserModel.Update st.users { user with Activated := true } with
          | error e =>
            simp only [hupd] at hrun
            cases e <;> simp at hrun
          | ok p =>
            obtain ⟨users', updated⟩ := p
            simp only [hupd, Prod.mk.injEq, HResp.ok.injEq] at hrun
            obtain ⟨⟨-, hu⟩, hst⟩ := hrun
            rw [← hst, ← hu]
  intro now'
  have hfind : (st'.tokens.find? (fun t =>
      t.Hash == hashFn s && t.Scope == TokenScope.activation && now' < t.Expiry)) = none := by
    rw [List.find?_eq_none]
    intro t ht
    rw [htok] at ht
    simp only [deleteAllForUser] at ht
    obtain ⟨htmem, htcond⟩ := List.mem_filter.mp ht
    by_cases hh : t.Hash = c.Hash
    · obtain ⟨huid, hscope⟩ := huniq t htmem hh
      exfalso
      simp [hscope, huid] at htcond
    · intro hp
      simp only [Bool.and_eq_true, beq_iff_eq] at hp
      exact hh (hp.1.1.trans hs)
  simp [resolveToken, hfind]

/-- C5: an empty title or author query string matches every record for
that field; the returned page is ordered by the safelist-validated column
and direction with the stable ascending tiebreak on the unique id column;
and the output of `GetAll` is deterministic — any enumeration order of the
same rows (with unique ids) produces the same result, even when the
primary sort key has duplicate values. -/
theorem getAll_search_deterministic (tsMatch : String → String → Bool) :
    (∀ b, rowMatches tsMatch "" "" b = true) ∧
    (∀ (db : List Book) (title author : String) (filters : Filters)
       (books : List Book) (col : String),
      filters.sortColumn = some col →
      (BookModel.GetAll tsMatch db none title author filters).books = some books →
      books.Sorted (sortRel col filters.sortDirection)) ∧
    (∀ (db db' : List Book) (title author : String) (filters : Filters),
      db.Perm db' → (db.map Book.Id).Nodup →
      BookModel.GetAll tsMatch db none title author filters =
        BookModel.GetAll tsMatch db' none title author filters) := by
  refine ⟨fun b => by simp [rowMatches], ?_, ?_⟩
  · intro db title author filters books col hcol hbooks
    simp only [BookModel.GetAll, hcol, Option.some.injEq] at hbooks
    rw [← hbooks]
    exact List.Pairwise.sublist
      ((List.take_sublist _ _).trans (List.drop_sublist _ _))
      (List.sorted_insertionSort _ _)
  · intro db db' title author filters hperm hnodup
    cases hcol : filters.sortColumn with
    | none => simp [BookModel.GetAll, hcol]
    | some col =>
      have hpf : (db.filter (rowMatches tsMatch title author)).Perm
          (db'.filter (rowMatches tsMatch title author)) :=
        hperm.filter _
      have hsorteq :
          (db.filter (rowMatches tsMatch title author)).insertionSort
              (sortRel col filters.sortDirection) =
            (db'.filter (rowMatches tsMatch title author)).insertionSort
              (sortRel col filters.sortDirection) := by
        apply sorted_perm_eq
        · exact (List.perm_insertionSort _ _).trans
            (hpf.trans (List.perm_insertionSort _ _).symm)
        · exact List.sorted_insertionSort _ _
        · exact List.sorted_insertionSort _ _
        · intro a ha b hb hr1 hr2
          have hid := sortRel_antisymm_id col filters.sortDirection hr1 hr2
          have ha' : a ∈ db :=
            (List.mem_filter.mp ((List.perm_insertionSort _ _).subset ha)).1
          have hb' : b ∈ db :=
            (List.mem_filter.mp ((List.perm_insertionSort _ _).subset hb)).1
          exact List.inj_on_of_nodup_map hnodup ha' hb' hid
      simp only [BookModel.GetAll, hcol]
      rw [hsorteq, hpf.length_eq]

/-! ## Witnesses -/

/-- Witness for C1: a safelisted value executes a query with a safelisted
column; the non-safelisted value `price` is rejected before any query. -/
theorem getBooks_sort_safelisted_witness :
    stripDescMarker "-title" ∈ bookSortSafelist ∧
    (GetBooks (fun _ _ => false) [] none "" "" "price" 1 20).2 = none :=
  ⟨((getBooks_sort_safelisted (fun _ _ => false) [] none "" "" "-title" 1 20).1
      ⟨"title", SortDir.desc, 20, 0⟩ (by decide)).1,
    ((getBooks_sort_safelisted (fun _ _ => false) [] none "" "" "price" 1 20).2
      (by decide)).1⟩

/-- Witness for C2 (amended): a stale-version user update conflicts, the
user race admits exactly one winner, and a stale book update succeeds. -/
theorem update_conflict_amended_witness :
    (UserModel.Update [⟨7, "n", "e", false, 2⟩] ⟨7, "n2", "e", true, 1⟩ =
      .error .editConflict) ∧
    (∃ users' nu,
      UserModel.Update [⟨7, "n", "e", false, 1⟩] ⟨7, "n2", "e", true, 1⟩ =
        .ok (users', nu) ∧
      UserModel.Update users' ⟨7, "n3", "e", true, 1⟩ = .error .editConflict) ∧
    (BookModel.Update [⟨1, "A", "X", 2000, "t0", "t1"⟩] none
      ⟨1, "B", "X", 2000, "t0", "t0"⟩ "t2").isOk = true := by
  refine ⟨?_, ?_, ?_⟩
  · exact update_conflict_amended.1 _ _ (by decide)
  · exact update_conflict_amended.2.1 [⟨7, "n", "e", false, 1⟩]
      ⟨7, "n2", "e", true, 1⟩ ⟨7, "n3", "e", true, 1⟩ 1
      (by decide) (by decide) rfl rfl rfl
  · exact update_conflict_amended.2.2.2 [⟨1, "Orig", "X", 2000, "t0", "t0"⟩]
      [⟨1, "A", "X", 2000, "t0", "t1"⟩] ⟨1, "A", "X", 2000, "t0", "t0"⟩
      ⟨1, "B", "X", 2000, "t0", "t0"⟩ ⟨1, "A", "X", 2000, "t0", "t1"⟩
      "t1" "t2" rfl (by decide)

/-- Witness for C4: the zero case and the `57/20` ceiling at page 2. -/
theorem calculateMetadata_correct_witness :
    calculateMetadata 0 1 20 = Metadata.zero ∧
    (calculateMetadata 57 2 20).CurrentPage = 2 ∧
    20 * ((calculateMetadata 57 2 20).LastPage - 1) < 57 ∧
    57 ≤ 20 * (calculateMetadata 57 2 20).LastPage :=
  ⟨(calculateMetadata_correct 0 1 20).1 rfl,
    ((calculateMetadata_correct 57 2 20).2.1 (by decide) (by decide) (by decide)).1,
    ((calculateMetadata_correct 57 2 20).2.1 (by decide) (by decide) (by decide)).2.2.2.2.1,
    ((calculateMetadata_correct 57 2 20).2.1 (by decide) (by decide) (by decide)).2.2.2.2.2⟩

/-- Witness for C5: an empty query matches a concrete record, and two
enumeration orders of the same two rows give identical `GetAll` output. -/
theorem getAll_search_deterministic_witness :
    rowMatches (fun _ _ => false) "" "" ⟨1, "Alpha", "X", 2000, "t", "t"⟩ = true ∧
    BookModel.GetAll (fun _ _ => false)
        [⟨1, "Alpha", "X", 2000, "t", "t"⟩, ⟨2, "Alpha", "Y", 1990, "t", "t"⟩]
        none "" "" ⟨1, 20, "id", bookSortSafelist⟩ =
      BookModel.GetAll (fun _ _ => false)
        [⟨2, "Alpha", "Y", 1990, "t", "t"⟩, ⟨1, "Alpha", "X", 2000, "t", "t"⟩]
        none "" "" ⟨1, 20, "id", bookSortSafelist⟩ :=
  ⟨(getAll_search_deterministic (fun _ _ => false)).1 _,
    (getAll_search_deterministic (fun _ _ => false)).2.2 _ _ "" "" _
      (List.Perm.swap (⟨2, "Alpha", "Y", 1990, "t", "t"⟩ : Book)
        (⟨1, "Alpha", "X", 2000, "t", "t"⟩ : Book) [])
      (by decide)⟩

/-- Witness for C6: a query matching nothing yields the empty non-nil
slice, zero metadata and no error. -/
theorem getAll_no_matches_empty_ok_witness :
    BookModel.GetAll (fun _ _ => false) [⟨1, "Alpha", "X", 2000, "t", "t"⟩]
        none "q" "" ⟨1, 20, "id", bookSortSafelist⟩ =
      ⟨some [], Metadata.zero, none, some ⟨"id", SortDir.asc, 20, 0⟩⟩ :=
  getAll_no_matches_empty_ok (fun _ _ => false) _ "q" "" _ "id"
    (by decide) (by decide)

/-- Witness for C7: page 2 of size 20 plans limit 20 / offset 20, and
page 0 is rejected before any query. -/
theorem pagination_plan_correct_witness :
    (Filters.mk 2 20 "id" bookSortSafelist).limit = 20 ∧
    (Filters.mk 2 20 "id" bookSortSafelist).offset = (2 - 1) * 20 ∧
    (GetBooks (fun _ _ => false) [] none "" "" "id" 0 20).2 = none :=
  ⟨((pagination_plan_correct 2 20 "id" bookSortSafelist).1
      (by decide) (by decide) (by decide)).1,
    ((pagination_plan_correct 2 20 "id" bookSortSafelist).1
      (by decide) (by decide) (by decide)).2.1,
    (((pagination_plan_correct 0 20 "id" bookSortSafelist).2 (by decide)).2
      (fun _ _ => false) [] none "" "").1⟩

/-- Witness for C8: after a successful activation run, the previously
issued activation secret of subject 7 no longer resolves. -/
theorem activation_revokes_tokens_witness :
    resolveToken (fun s => String.mk (s.data ++ ['#'])) [] .activation
      "abcdefghijklmnopqrstuvwxyz" 5 = .error .recordNotFound :=
  activation_revokes_tokens (fun s => String.mk (s.data ++ ['#']))
    ⟨[⟨7, "n", "e", false, 1⟩], [⟨"abcdefghijklmnopqrstuvwxyz#", 7, 100, .activation⟩]⟩
    (some "abcdefghijklmnopqrstuvwxyz") 5 ⟨7, "n", "e", true, 2⟩
    ⟨[⟨7, "n", "e", true, 2⟩], []⟩ (by decide)
    ⟨"abcdefghijklmnopqrstuvwxyz#", 7, 100, .activation⟩ (by decide) rfl rfl
    "abcdefghijklmnopqrstuvwxyz" (by decide)
    (by decide) 5

/-- Witness for C9: with the record present and the delete step failing on
a timeout, the handler still reports success and the store is unchanged. -/
theorem deleteBook_success_despite_delete_error_witness :
    (DeleteBook [⟨1, "Alpha", "X", 2000, "t", "t"⟩] none (some .timeout) (some 1)).1 =
      .ok 200 ("success", ⟨1, "Alpha", "X", 2000, "t", "t"⟩) ∧
    (DeleteBook [⟨1, "Alpha", "X", 2000, "t", "t"⟩] none (some .timeout) (some 1)).2 =
      [⟨1, "Alpha", "X", 2000, "t", "t"⟩] :=
  ⟨(deleteBook_success_despite_delete_error [⟨1, "Alpha", "X", 2000, "t", "t"⟩]
      none (some .timeout) 1 ⟨1, "Alpha", "X", 2000, "t", "t"⟩ (by decide)).1,
    (deleteBook_success_despite_delete_error [⟨1, "Alpha", "X", 2000, "t", "t"⟩]
      none (some .timeout) 1 ⟨1, "Alpha", "X", 2000, "t", "t"⟩ (by decide)).2 .timeout rfl⟩

/-- Witness for C10: a body with a null title keeps the stored title. -/
theorem updateBook_partial_update_witness :
    (applyBookInput ⟨1, "Alpha", "X", 2000, "t", "t"⟩
      ⟨none, some "NewAuth", none⟩).Title = "Alpha" :=
  (updateBook_partial_update [⟨1, "Alpha", "X", 2000, "t", "t"⟩] none none 1
    ⟨none, some "NewAuth", none⟩ "t9" ⟨1, "Alpha", "X", 2000, "t", "t"⟩
    ⟨1, "Alpha", "NewAuth", 2000, "t", "t9"⟩ [⟨1, "Alpha", "NewAuth", 2000, "t", "t9"⟩]
    (by decide) (by decide)).1 rfl
